import Mathlib

/-!
Verification development for the Lost Knowledge repository.

Shallow embedding of the three algorithmic cores:
* the slide-puzzle engine (src/unnamed/part_001),
* the constellation edge engine (src/constellation.js),
* the helix motion controller (src/main.js),
together with theorems settling the frozen claims about them.

JS floating-point numbers are modelled as real numbers; JS `Set`s of
edge-key strings are modelled as `Finset (ℕ × ℕ)` of normalized pairs;
JS 2-dimensional arrays are modelled as `List (List ℕ)`.
-/

namespace LostKnowledge

/-! ## Slide puzzle engine (src/unnamed/part_001) -/

namespace SlidePuzzle

/-- Grid row count, from `const ROWS = 3`. -/
def ROWS : ℕ := 3

/-- Grid column count, from `const COLS = 4`. -/
def COLS : ℕ := 4

/-- A board is a ROWS x COLS array of integers, 0 = blank (`_board`). -/
abbrev Board := List (List ℕ)

/-- The four logical move directions `'U','D','L','R'`. -/
inductive Dir
  | U
  | D
  | L
  | R
deriving DecidableEq, Repr

/-- Row offset of the source cell relative to the blank:
`blank.r + (dir === 'U' ? -1 : (dir === 'D' ? 1 : 0))`. -/
def rowDelta : Dir → ℤ
  | .U => -1
  | .D => 1
  | _ => 0

/-- Column offset of the source cell relative to the blank:
`blank.c + (dir === 'L' ? -1 : (dir === 'R' ? 1 : 0))`. -/
def colDelta : Dir → ℤ
  | .L => -1
  | .R => 1
  | _ => 0

/-- Read cell (r, c) of a board (JS `board[r][c]`; out of range reads give 0,
which in-range code never relies on). -/
def getCell (b : Board) (r c : ℕ) : ℕ := (b.getD r []).getD c 0

/-- Write cell (r, c) of a board (JS `board[r][c] = v`). -/
def setCell (b : Board) (r c v : ℕ) : Board := b.set r ((b.getD r []).set c v)

/-- Index of the first 0 in one row, scanning left to right. -/
def findBlankRow : List ℕ → Option ℕ
  | [] => none
  | v :: rest => if v = 0 then some 0 else (findBlankRow rest).map Nat.succ

/-- `_findBlank`: row-major scan for the first cell equal to 0,
returning its (row, column) coordinates, or none. -/
def findBlank : Board → Option (ℕ × ℕ)
  | [] => none
  | row :: rest =>
    match findBlankRow row with
    | some c => some (0, c)
    | none => (findBlank rest).map fun p => (p.1 + 1, p.2)

/-- `_canMove`: a move in direction d is allowed iff the source cell
(adjacent to the blank in the source direction) lies within grid bounds.
The JS function also receives unused r, c arguments, dropped here. -/
def canMove (b : Board) (d : Dir) : Bool :=
  match findBlank b with
  | none => false
  | some (br, bc) =>
    let sr : ℤ := (br : ℤ) + rowDelta d
    let sc : ℤ := (bc : ℤ) + colDelta d
    decide (0 ≤ sr ∧ sr < (ROWS : ℤ) ∧ 0 ≤ sc ∧ sc < (COLS : ℤ))

/-- `_applyMove`: slide the tile in the given direction into the blank.
Returns the new board and whether a move was applied. -/
def applyMove (b : Board) (d : Dir) : Board × Bool :=
  match findBlank b with
  | none => (b, false)
  | some (br, bc) =>
    let sr : ℤ := (br : ℤ) + rowDelta d
    let sc : ℤ := (bc : ℤ) + colDelta d
    if 0 ≤ sr ∧ sr < (ROWS : ℤ) ∧ 0 ≤ sc ∧ sc < (COLS : ℤ) then
      (setCell (setCell b br bc (getCell b sr.toNat sc.toNat)) sr.toNat sc.toNat 0, true)
    else (b, false)

/-- `_createEmptyBoard`: the solved layout, last cell blank.  The JS code
fills cells with an incrementing counter `idx`, which at row r, column c
has the value `r * COLS + c + 1`. -/
def createEmptyBoard : Board :=
  (List.range ROWS).map fun r =>
    (List.range COLS).map fun c =>
      if r = ROWS - 1 ∧ c = COLS - 1 then 0 else r * COLS + c + 1

/-- `_boardToIndexArray`: flatten the board row-major. -/
def boardToIndexArray (b : Board) : List ℕ := b.flatten

/-- `_isSolved`: reading row-major, every cell but the last equals its
1-based index, and the last cell is 0. -/
def isSolved (b : Board) : Bool :=
  let flat := boardToIndexArray b
  flat.enum.all fun p => if p.1 = flat.length - 1 then p.2 == 0 else p.2 == p.1 + 1

/-- Apply a sequence of moves with `applyMove` (illegal ones are rejected
and leave the board unchanged). -/
def applyMoves (b : Board) : List Dir → Board
  | [] => b
  | d :: rest => applyMoves (applyMove b d).1 rest

/-- `_shuffleByMoves`: each iteration picks a random legal direction and
applies it.  The random draws are modelled by an oracle list of
directions; a drawn direction that is not legal for the current board
corresponds to a draw the JS filter would not produce and is skipped,
leaving the board unchanged, exactly as an empty legal set does. -/
def shuffleByMoves (b : Board) (picks : List Dir) : Board :=
  picks.foldl (fun bd d => if canMove bd d then (applyMove bd d).1 else bd) b

/-- `_controlsInverted` starts as `true` (line 46 of the module). -/
def controlsInvertedDefault : Bool := true

/-- The four arrow keys handled by `_slidePuzzle_keyHandler`. -/
inductive ArrowKey
  | up
  | down
  | left
  | right
deriving DecidableEq, Repr

/-- Arrow-key-to-direction mapping of `_slidePuzzle_keyHandler`. -/
def arrowToDir (inverted : Bool) : ArrowKey → Dir
  | .up => if inverted then .D else .U
  | .down => if inverted then .U else .D
  | .left => if inverted then .R else .L
  | .right => if inverted then .L else .R

/-- Pressing I flips the inversion flag (`_controlsInverted = !_controlsInverted`). -/
def toggleInverted (inv : Bool) : Bool := !inv

/-- The opposite of each direction. -/
def oppositeDir : Dir → Dir
  | .U => .D
  | .D => .U
  | .L => .R
  | .R => .L

/-- A board has the documented shape: ROWS rows of COLS cells each. -/
def Shaped (b : Board) : Prop := b.length = ROWS ∧ ∀ row ∈ b, row.length = COLS

instance (b : Board) : Decidable (Shaped b) := by
  unfold Shaped
  infer_instance

/-- The board-permutation invariant: the multiset of cell values is
exactly the value range, so 0 and every tile value occur exactly once. -/
def BoardInv (b : Board) : Prop :=
  (↑b.flatten : Multiset ℕ) = ↑(List.range (ROWS * COLS))

instance (b : Board) : Decidable (BoardInv b) := by
  unfold BoardInv
  infer_instance

end SlidePuzzle

/-! ## Constellation edge engine (src/constellation.js)

Only the logical gesture state is embedded: the sets of required and
matched edges, the permanent-line count, the per-gesture temporaries, and
the per-star `linked` / `_linkedTemp` / `shooting` flags.  Sprites,
textures, raycasting and sounds are presentation concerns; the raycast
results feeding `_onPointerDown` / `_onPointerMove` are taken as inputs. -/

namespace Constellation

/-- One star's logical flags (`linked`, `_linkedTemp`, `shooting`). -/
structure Star where
  linked : Bool
  linkedTemp : Bool
  shooting : Bool
deriving DecidableEq, Repr

/-- The default star record used for out-of-range reads (never hit by
in-range code). -/
def defaultStar : Star := ⟨false, false, false⟩

/-- `_edgeKey(a,b)`: the normalized unordered pair, smaller index first. -/
def edgeKey (a b : ℕ) : ℕ × ℕ := if a < b then (a, b) else (b, a)

/-- The logical state of the `ConstellationGame` object. -/
structure ConstState where
  edges : Finset (ℕ × ℕ)
  matchedEdges : Finset (ℕ × ℕ)
  permanentLines : ℕ
  tempLinesThisClick : ℕ
  edgesThisClick : List (ℕ × ℕ)
  starsLinkedThisClick : List ℕ
  stars : List Star
  currentPath : List ℕ
  dragging : Bool
  creationMode : Bool
deriving DecidableEq

/-- Set the `_linkedTemp` flag of star i and record i, unless already
temporarily linked (the two `if (!s._linkedTemp)` blocks of
`_finalizeSegmentAndStartNew`). -/
def markTempLinked (st : ConstState) (i : ℕ) : ConstState :=
  if (st.stars.getD i defaultStar).linkedTemp then st
  else
    { st with
      stars := st.stars.set i { st.stars.getD i defaultStar with linkedTemp := true },
      starsLinkedThisClick := st.starsLinkedThisClick ++ [i] }

/-- `_finalizeSegmentAndStartNew(a, b)`: push a temporary line and the
edge key a-b, temporarily mark both stars linked, and re-anchor the
gesture path at b. -/
def finalizeSegmentAndStartNew (st : ConstState) (a b : ℕ) : ConstState :=
  let st1 := { st with
    tempLinesThisClick := st.tempLinesThisClick + 1,
    edgesThisClick := st.edgesThisClick ++ [edgeKey a b] }
  let st2 := markTempLinked st1 a
  let st3 := markTempLinked st2 b
  { st3 with currentPath := [b] }

/-- Clear `_linkedTemp` on every recorded star index
(the revert loop of `_dropCurrentClick`). -/
def clearTempFlags (stars : List Star) : List ℕ → List Star
  | [] => stars
  | i :: rest =>
    clearTempFlags (stars.set i { stars.getD i defaultStar with linkedTemp := false }) rest

/-- `_dropCurrentClick`: discard the whole gesture — temporary lines,
temporary linked flags, recorded edges and the current path. -/
def dropCurrentClick (st : ConstState) : ConstState :=
  { st with
    tempLinesThisClick := 0,
    stars := clearTempFlags st.stars st.starsLinkedThisClick,
    starsLinkedThisClick := [],
    edgesThisClick := [],
    currentPath := [] }

/-- Mark every recorded star permanently linked and clear its temporary
flag (the commit loop of `_commitTempLines`). -/
def setLinkedTrue (stars : List Star) : List ℕ → List Star
  | [] => stars
  | i :: rest =>
    setLinkedTrue
      (stars.set i { stars.getD i defaultStar with linked := true, linkedTemp := false }) rest

/-- `_commitTempLines`: move temporary lines to the permanent set, record
the gesture's edges in `matchedEdges` (and, in creation mode, in the
allowed set first), mark touched stars linked, and reset the gesture. -/
def commitTempLines (st : ConstState) : ConstState :=
  let st1 := { st with permanentLines := st.permanentLines + st.tempLinesThisClick }
  let st2 := if st.creationMode
    then { st1 with edges := st1.edges ∪ st.edgesThisClick.toFinset }
    else st1
  let st3 := { st2 with matchedEdges := st2.matchedEdges ∪ st.edgesThisClick.toFinset }
  { st3 with
    stars := setLinkedTrue st3.stars st.starsLinkedThisClick,
    tempLinesThisClick := 0,
    edgesThisClick := [],
    starsLinkedThisClick := [],
    currentPath := [] }

/-- `_onPointerDown`: given the first collider hit (if any), begin a
gesture anchored at that star, resetting the per-click temporaries; a
shooting anchor immediately drops the click.  A click on empty space is
a no-op (creation mode is disabled: `CREATION_DISABLED = true`). -/
def onPointerDown (st : ConstState) (hit : Option ℕ) : ConstState :=
  match hit with
  | none => st
  | some idx =>
    if idx < st.stars.length then
      let st1 := { st with
        dragging := true,
        currentPath := [idx],
        tempLinesThisClick := 0,
        edgesThisClick := [],
        starsLinkedThisClick := [] }
      if (st.stars.getD idx defaultStar).shooting then dropCurrentClick st1 else st1
    else st

/-- `_onPointerMove`: given the ordered collider hits of this sample,
process the first hit that differs from the gesture's current anchor by
finalizing the segment to it.  When the gesture has no anchor
(`currentPath` empty, as after a shooting-star pointer-down), the JS
code throws on `this.stars[undefined]` before mutating any state, so the
logical state is unchanged. -/
def onPointerMove (st : ConstState) (hits : List ℕ) : ConstState :=
  if st.dragging then
    match st.currentPath.getLast? with
    | none => st
    | some last =>
      match hits.find? (fun i => i != last) with
      | some idx => finalizeSegmentAndStartNew st last idx
      | none => st
  else st

/-- `_onPointerUp`: validate the gesture's recorded edges; outside
creation mode, any recorded edge missing from the required set drops the
whole click, otherwise the click commits. -/
def onPointerUp (st : ConstState) : ConstState :=
  if st.dragging then
    let st0 := { st with dragging := false }
    let bad := st.edgesThisClick.any fun e => !st.creationMode && !(decide (e ∈ st.edges))
    if bad then dropCurrentClick st0 else commitTempLines st0
  else st

/-- A pointer event, carrying the external raycast results. -/
inductive PEvent
  | down (hit : Option ℕ)
  | move (hits : List ℕ)
  | up
deriving DecidableEq

/-- Dispatch one pointer event. -/
def step (st : ConstState) : PEvent → ConstState
  | .down h => onPointerDown st h
  | .move hs => onPointerMove st hs
  | .up => onPointerUp st

/-- Run a sequence of pointer events. -/
def run (st : ConstState) : List PEvent → ConstState
  | [] => st
  | e :: rest => run (step st e) rest

/-- `_checkCompletion`: with a non-empty required set, the level is
complete iff every required edge has been matched; otherwise iff every
star is linked. -/
def checkCompletion (st : ConstState) : Bool :=
  if st.edges.Nonempty then decide (st.edges ⊆ st.matchedEdges)
  else st.stars.all fun s => s.linked

/-- Temporary linked flags are exactly the recorded ones: every in-range
star whose `_linkedTemp` flag is set appears in `_starsLinkedThisClick`.
This holds at every reachable state and is used as an explicit
precondition. -/
def TempRecorded (st : ConstState) : Prop :=
  ∀ i < st.stars.length,
    (st.stars.getD i defaultStar).linkedTemp = true → i ∈ st.starsLinkedThisClick

instance (st : ConstState) : Decidable (TempRecorded st) := by
  unfold TempRecorded
  infer_instance

/-- A fresh level with three ordinary stars and the single required edge
(0,1), as in the concrete constellation scenario. -/
def startState3 : ConstState :=
  { edges := {(0, 1)},
    matchedEdges := ∅,
    permanentLines := 0,
    tempLinesThisClick := 0,
    edgesThisClick := [],
    starsLinkedThisClick := [],
    stars := [⟨false, false, false⟩, ⟨false, false, false⟩, ⟨false, false, false⟩],
    currentPath := [],
    dragging := false,
    creationMode := false }

/-- A fresh level whose star 1 is a shooting star, with the required
edge (0,1). -/
def shootingState : ConstState :=
  { edges := {(0, 1)},
    matchedEdges := ∅,
    permanentLines := 0,
    tempLinesThisClick := 0,
    edgesThisClick := [],
    starsLinkedThisClick := [],
    stars := [⟨false, false, false⟩, ⟨false, false, true⟩],
    currentPath := [],
    dragging := false,
    creationMode := false }

end Constellation

/-! ## Helix motion controller (src/main.js)

JS floats become real numbers; `Math.atan2`, `Math.hypot`, `Math.round`
become `Complex.arg`, `Real.sqrt` and Mathlib's `round` (which, like JS
`Math.round`, rounds half-up).  Camera orientation, pointer lock and load
gating are external; the horizontal movement vector computed from camera
yaw and WASD is taken as an input. -/

namespace Helix

open Real

noncomputable section

/-- JS `Math.atan2(y, x)`: the angle of the point (x, y), in (-π, π],
with `atan2(0, 0) = 0`.  `Complex.arg` has exactly this branch cut. -/
def atan2 (y x : ℝ) : ℝ := Complex.arg ((x : ℂ) + (y : ℂ) * Complex.I)

/-- The mutable fields of the `helix` config object. -/
structure HelixState where
  centerX : ℝ
  centerZ : ℝ
  radius : ℝ
  thickness : ℝ
  pitch : ℝ
  baseY : ℝ
  offsetY : ℝ
  inverted : Bool
  lastTheta : ℝ

/-- A camera world position. -/
structure CameraPos where
  x : ℝ
  y : ℝ
  z : ℝ

/-- `const sign = helix.inverted ? -1 : 1`. -/
def invSign (inverted : Bool) : ℝ := if inverted then -1 else 1

/-- `if (wrappedTheta < 0) wrappedTheta += Math.PI * 2`. -/
def wrapTo2Pi (a : ℝ) : ℝ := if a < 0 then a + 2 * π else a

/-- The wrapped angle in [0, 2π) of the offset (dx, dz) from the center:
`Math.atan2(dz, dx)` normalized by `wrapTo2Pi`. -/
def wrappedThetaOf (dz dx : ℝ) : ℝ := wrapTo2Pi (atan2 dz dx)

/-- The continuity rule: `k = Math.round((lastTheta - wrapped) / (2π));
theta = wrapped + k * 2π`. -/
def branchTheta (lastTheta wrapped : ℝ) : ℝ :=
  wrapped + (round ((lastTheta - wrapped) / (2 * π)) : ℤ) * (2 * π)

/-- `rMin = helix.radius - helix.thickness / 2`. -/
def rMin (h : HelixState) : ℝ := h.radius - h.thickness / 2

/-- `rMax = helix.radius + helix.thickness / 2`. -/
def rMax (h : HelixState) : ℝ := h.radius + h.thickness / 2

/-- `rClamped = Math.min(Math.max(r, rMin), rMax)`. -/
def clampRadius (h : HelixState) (r : ℝ) : ℝ := min (max r (rMin h)) (rMax h)

/-- The vertical mapping
`helixY = helix.baseY + sign * (theta / (2π)) * helix.pitch + helix.offsetY`. -/
def helixYOf (h : HelixState) (θ : ℝ) : ℝ :=
  h.baseY + invSign h.inverted * (θ / (2 * π)) * h.pitch + h.offsetY

/-- The helix branch of `updateMovement` for a nonzero movement intent:
from the target point (current XZ plus the movement vector) compute the
wrapped angle, select the continuous branch, store it in `lastTheta`,
clamp the target's radial distance into the band, and place the camera
on the helix at that angle. -/
def updateMovementHelix (h : HelixState) (cam : CameraPos) (mx mz : ℝ) :
    HelixState × CameraPos :=
  let targetX := cam.x + mx
  let targetZ := cam.z + mz
  let wrapped := wrappedThetaOf (targetZ - h.centerZ) (targetX - h.centerX)
  let θ := branchTheta h.lastTheta wrapped
  let rTarget := Real.sqrt ((targetX - h.centerX) ^ 2 + (targetZ - h.centerZ) ^ 2)
  let rC := clampRadius h rTarget
  ({ h with lastTheta := θ },
   { x := h.centerX + rC * Real.cos θ,
     y := helixYOf h θ,
     z := h.centerZ + rC * Real.sin θ })

/-- `initHelixLastThetaFromCamera`: solve the vertical mapping for the
full angle matching the camera's y (`sign * helix.pitch || 1e-6` guards a
zero denominator), then pick the branch of the wrapped XZ angle nearest
that solution. -/
def initHelixLastTheta (h : HelixState) (cam : CameraPos) : ℝ :=
  let wrapped := wrappedThetaOf (cam.z - h.centerZ) (cam.x - h.centerX)
  let s := invSign h.inverted
  let denom := if s * h.pitch = 0 then 1e-6 else s * h.pitch
  let desired := (cam.y - h.baseY - h.offsetY) * (2 * π) / denom
  wrapped + (round ((desired - wrapped) / (2 * π)) : ℤ) * (2 * π)

/-- `constrainCameraToHelix`.  `wrapEnabled` stands for the external
wrap guard (tower placed, reference pose captured, wrap armed for more
than a second); `cooldownElapsed` for `now - helix._lastWrapTime`
exceeding the cooldown; `refY` for `initialHelixRef.cameraPos.y`.

When the wrap fires, the camera's y is translated by 3·pitch toward the
reference, `lastTheta` is recomputed from the new y and the unchanged
XZ via `initHelixLastThetaFromCamera`, the canonical helix y replaces
the wrapped y, and the function returns without touching XZ.  Otherwise
the camera is projected onto the clamped band at the continuous angle
and its y recomputed from the vertical mapping. -/
def constrainCameraToHelix (h : HelixState) (cam : CameraPos)
    (wrapEnabled cooldownElapsed : Bool) (refY : ℝ) : HelixState × CameraPos :=
  let dx := cam.x - h.centerX
  let dz := cam.z - h.centerZ
  let wrapped := wrappedThetaOf dz dx
  let θ := branchTheta h.lastTheta wrapped
  if wrapEnabled = true ∧ (cam.y ≥ refY + 2 * h.pitch ∨ cam.y ≤ refY - 2 * h.pitch)
      ∧ cooldownElapsed = true then
    let y1 := if cam.y ≥ refY + 2 * h.pitch then cam.y - 3 * h.pitch else cam.y + 3 * h.pitch
    let θw := initHelixLastTheta h { x := cam.x, y := y1, z := cam.z }
    ({ h with lastTheta := θw }, { x := cam.x, y := helixYOf h θw, z := cam.z })
  else
    let r := Real.sqrt (dx ^ 2 + dz ^ 2)
    let rC := clampRadius h r
    ({ h with lastTheta := θ },
     { x := h.centerX + rC * Real.cos θ,
       y := helixYOf h θ,
       z := h.centerZ + rC * Real.sin θ })

/-- One movement frame in helix mode: the movement mapping of
`updateMovement` followed by the call to `constrainCameraToHelix` at the
end of `updateMovement`. -/
def moveAndConstrain (h : HelixState) (cam : CameraPos) (mx mz : ℝ)
    (wrapEnabled cooldownElapsed : Bool) (refY : ℝ) : HelixState × CameraPos :=
  let s := updateMovementHelix h cam mx mz
  constrainCameraToHelix s.1 s.2 wrapEnabled cooldownElapsed refY

/-- The spec's position contract, written from the spec's own words:
`position = center + rClamped·(cosθ, sinθ)` on the horizontal plane with
θ the continuity-selected branch of the target's wrapped angle and
rClamped the clamp of the target's radial distance into the band, and
`y = baseY + sign(inverted)·(θ/2π)·pitch + offsetY`. -/
def contractCameraPos (h : HelixState) (targetX targetZ : ℝ) : CameraPos :=
  let θ := branchTheta h.lastTheta (wrappedThetaOf (targetZ - h.centerZ) (targetX - h.centerX))
  let rClamped :=
    clampRadius h (Real.sqrt ((targetX - h.centerX) ^ 2 + (targetZ - h.centerZ) ^ 2))
  { x := h.centerX + rClamped * Real.cos θ,
    y := h.baseY + invSign h.inverted * (θ / (2 * π)) * h.pitch + h.offsetY,
    z := h.centerZ + rClamped * Real.sin θ }

/-- Camera position computed from an unwrapped angle θ and a target
radial distance r via the helix mapping. -/
def posFromTheta (h : HelixState) (r θ : ℝ) : CameraPos :=
  { x := h.centerX + clampRadius h r * Real.cos θ,
    y := helixYOf h θ,
    z := h.centerZ + clampRadius h r * Real.sin θ }

/-- Re-derive the unwrapped angle from a camera position: wrapped angle
of the XZ offset, then the continuity branch against the seed. -/
def rederiveTheta (h : HelixState) (cam : CameraPos) (seed : ℝ) : ℝ :=
  branchTheta seed (wrappedThetaOf (cam.z - h.centerZ) (cam.x - h.centerX))

/-- The concrete helix configuration of the spec scenario: center (0,0),
radius 2, thickness 0.6, pitch 2, baseY 10, offsetY 0, inverted,
lastTheta 0. -/
def sampleHelix : HelixState :=
  { centerX := 0, centerZ := 0, radius := 2, thickness := 0.6, pitch := 2,
    baseY := 10, offsetY := 0, inverted := true, lastTheta := 0 }

/-- A helix configuration for exercising the revolution wrap: pitch 2,
baseY 0, offsetY 0, not inverted. -/
def wrapHelix : HelixState :=
  { centerX := 0, centerZ := 0, radius := 2, thickness := 0.6, pitch := 2,
    baseY := 0, offsetY := 0, inverted := false, lastTheta := 0 }

end

end Helix

/-! ## Theorems: slide puzzle -/

namespace SlidePuzzle

theorem getD_set_self {α : Type} : ∀ (l : List α) (i : ℕ) (a d : α), i < l.length →
    (l.set i a).getD i d = a
  | [], _, _, _, h => absurd h (by simp)
  | _ :: _, 0, _, _, _ => rfl
  | _ :: xs, i + 1, a, d, h => by
    simpa using getD_set_self xs i a d (Nat.lt_of_succ_lt_succ (by simpa using h))

theorem getD_set_ne {α : Type} : ∀ (l : List α) (i j : ℕ) (a d : α), i ≠ j →
    (l.set i a).getD j d = l.getD j d
  | [], _, _, _, _, _ => by simp
  | _ :: _, 0, 0, _, _, h => absurd rfl h
  | _ :: _, 0, _ + 1, _, _, _ => by simp
  | _ :: _, _ + 1, 0, _, _, _ => by simp
  | _ :: xs, i + 1, j + 1, a, d, h => by
    simpa using getD_set_ne xs i j a d (fun hc => h (by omega))

theorem getD_mem {α : Type} (l : List α) (i : ℕ) (d : α) (h : i < l.length) :
    l.getD i d ∈ l := by
  rw [List.getD_eq_getElem l d h]
  exact List.getElem_mem h

theorem set_toMultiset_add {α : Type} : ∀ (row : List α) (c : ℕ) (v d : α), c < row.length →
    (↑(row.set c v) : Multiset α) + {row.getD c d} = ↑row + {v}
  | [], _, _, _, h => absurd h (by simp)
  | x :: xs, 0, v, d, _ => by
    show (↑(v :: xs) : Multiset α) + {x} = ↑(x :: xs) + {v}
    rw [← Multiset.cons_coe, ← Multiset.cons_coe, ← Multiset.singleton_add,
      ← Multiset.singleton_add]
    abel
  | x :: xs, c + 1, v, d, h => by
    have ih := set_toMultiset_add xs c v d (by simpa using h)
    show (↑(x :: xs.set c v) : Multiset α) + {xs.getD c d} = ↑(x :: xs) + {v}
    rw [← Multiset.cons_coe, ← Multiset.cons_coe, Multiset.cons_add, ih, Multiset.cons_add]

theorem flatten_setCell_add : ∀ (b : Board) (r c v : ℕ), r < b.length →
    c < (b.getD r []).length →
    (↑(setCell b r c v).flatten : Multiset ℕ) + {getCell b r c} = ↑b.flatten + {v}
  | [], _, _, _, hr, _ => absurd hr (by simp)
  | row :: rest, 0, c, v, _, hc => by
    have hc' : c < row.length := by simpa using hc
    show (↑((row.set c v) :: rest).flatten : Multiset ℕ) + {row.getD c 0} =
      ↑((row :: rest).flatten) + {v}
    rw [List.flatten_cons, List.flatten_cons, ← Multiset.coe_add, ← Multiset.coe_add,
      add_right_comm, set_toMultiset_add row c v 0 hc', add_right_comm]
  | row :: rest, r + 1, c, v, hr, hc => by
    have ih := flatten_setCell_add rest r c v (by simpa using hr) (by simpa using hc)
    show (↑(row :: setCell rest r c v).flatten : Multiset ℕ) + {getCell rest r c} =
      ↑((row :: rest).flatten) + {v}
    rw [List.flatten_cons, List.flatten_cons, ← Multiset.coe_add, ← Multiset.coe_add,
      add_assoc, ih, ← add_assoc]

theorem getCell_setCell_ne (b : Board) (r c r' c' v : ℕ) (hne : ¬(r = r' ∧ c = c')) :
    getCell (setCell b r c v) r' c' = getCell b r' c' := by
  unfold getCell setCell
  by_cases hrr : r = r'
  · subst hrr
    have hcc : c ≠ c' := fun h => hne ⟨rfl, h⟩
    by_cases hlen : r < b.length
    · rw [getD_set_self b r _ [] hlen, getD_set_ne _ c c' _ _ hcc]
    · rw [List.set_eq_of_length_le (Nat.le_of_not_lt hlen)]
  · rw [getD_set_ne b r r' _ [] hrr]

theorem findBlankRow_spec : ∀ (row : List ℕ) (c : ℕ), findBlankRow row = some c →
    c < row.length ∧ row.getD c 0 = 0
  | [], _, h => by simp [findBlankRow] at h
  | v :: rest, c, h => by
    by_cases hv : v = 0
    · rw [findBlankRow, if_pos hv] at h
      obtain rfl : (0 : ℕ) = c := Option.some.inj h
      exact ⟨Nat.succ_pos _, hv⟩
    · rw [findBlankRow, if_neg hv] at h
      cases hr : findBlankRow rest with
      | none => rw [hr] at h; exact absurd h (by simp)
      | some c' =>
        rw [hr] at h
        obtain rfl : Nat.succ c' = c := Option.some.inj h
        obtain ⟨h1, h2⟩ := findBlankRow_spec rest c' hr
        exact ⟨Nat.succ_lt_succ h1, h2⟩

theorem findBlank_spec : ∀ (b : Board) (r c : ℕ), findBlank b = some (r, c) →
    r < b.length ∧ c < (b.getD r []).length ∧ getCell b r c = 0
  | [], _, _, h => by simp [findBlank] at h
  | row :: rest, r, c, h => by
    rw [findBlank] at h
    cases hrow : findBlankRow row with
    | some c0 =>
      rw [hrow] at h
      obtain ⟨rfl, rfl⟩ := Prod.mk.inj (Option.some.inj h)
      obtain ⟨h1, h2⟩ := findBlankRow_spec row c0 hrow
      exact ⟨Nat.succ_pos _, by simpa using h1, by simpa [getCell] using h2⟩
    | none =>
      rw [hrow] at h
      cases hrest : findBlank rest with
      | none => rw [hrest] at h; exact absurd h (by simp)
      | some p =>
        obtain ⟨r', c'⟩ := p
        rw [hrest] at h
        obtain ⟨rfl, rfl⟩ := Prod.mk.inj (Option.some.inj h)
        obtain ⟨h1, h2, h3⟩ := findBlank_spec rest r' c' hrest
        exact ⟨Nat.succ_lt_succ h1, by simpa using h2, by simpa [getCell] using h3⟩

theorem setCell_shaped (b : Board) (r c v : ℕ) (hs : Shaped b) :
    Shaped (setCell b r c v) := by
  obtain ⟨hlen, hrow⟩ := hs
  by_cases hr : r < b.length
  · constructor
    · simpa [setCell] using hlen
    · intro row' hmem
      rcases List.mem_or_eq_of_mem_set hmem with h | h
      · exact hrow row' h
      · subst h
        rw [List.length_set]
        exact hrow _ (getD_mem b r [] hr)
  · unfold setCell
    rw [List.set_eq_of_length_le (Nat.le_of_not_lt hr)]
    exact ⟨hlen, hrow⟩

theorem shaped_row_length (b : Board) (hs : Shaped b) (i : ℕ) (hi : i < b.length) :
    (b.getD i []).length = COLS :=
  hs.2 _ (getD_mem b i [] hi)

theorem applyMove_preserves (b : Board) (d : Dir) (hs : Shaped b) (hi : BoardInv b) :
    Shaped (applyMove b d).1 ∧ BoardInv (applyMove b d).1 := by
  unfold applyMove
  cases hb : findBlank b with
  | none => exact ⟨hs, hi⟩
  | some p =>
    obtain ⟨br, bc⟩ := p
    dsimp only
    obtain ⟨hbr, hbc, hzero⟩ := findBlank_spec b br bc hb
    by_cases hcond : 0 ≤ (br : ℤ) + rowDelta d ∧ (br : ℤ) + rowDelta d < (ROWS : ℤ) ∧
        0 ≤ (bc : ℤ) + colDelta d ∧ (bc : ℤ) + colDelta d < (COLS : ℤ)
    · rw [if_pos hcond]
      have hRC : (ROWS : ℤ) = 3 ∧ (COLS : ℤ) = 4 := by constructor <;> rfl
      have hlen3 : b.length = 3 := hs.1
      have hsr : ((br : ℤ) + rowDelta d).toNat < b.length := by
        rw [hlen3]; omega
      have hsc : ((bc : ℤ) + colDelta d).toNat < (b.getD ((br : ℤ) + rowDelta d).toNat []).length := by
        rw [shaped_row_length b hs _ hsr]
        show _ < 4
        omega
      have hne : ¬(br = ((br : ℤ) + rowDelta d).toNat ∧ bc = ((bc : ℤ) + colDelta d).toNat) := by
        cases d <;> simp only [rowDelta, colDelta] at hcond ⊢ <;> omega
      set v := getCell b ((br : ℤ) + rowDelta d).toNat ((bc : ℤ) + colDelta d).toNat with hv
      have hs1 : Shaped (setCell b br bc v) := setCell_shaped b br bc v hs
      have hs2 : Shaped (setCell (setCell b br bc v) ((br : ℤ) + rowDelta d).toNat
          ((bc : ℤ) + colDelta d).toNat 0) := setCell_shaped _ _ _ _ hs1
      refine ⟨hs2, ?_⟩
      have h1 := flatten_setCell_add b br bc v hbr hbc
      rw [hzero] at h1
      have hsr1 : ((br : ℤ) + rowDelta d).toNat < (setCell b br bc v).length := by
        simpa [setCell] using hsr
      have hsc1 : ((bc : ℤ) + colDelta d).toNat <
          ((setCell b br bc v).getD ((br : ℤ) + rowDelta d).toNat []).length := by
        rw [shaped_row_length _ hs1 _ hsr1]
        show _ < 4
        omega
      have h2 := flatten_setCell_add (setCell b br bc v) ((br : ℤ) + rowDelta d).toNat
        ((bc : ℤ) + colDelta d).toNat 0 hsr1 hsc1
      rw [getCell_setCell_ne b br bc _ _ v hne, ← hv] at h2
      unfold BoardInv at hi ⊢
      have hchain : (↑(setCell (setCell b br bc v) ((br : ℤ) + rowDelta d).toNat
          ((bc : ℤ) + colDelta d).toNat 0).flatten : Multiset ℕ) + {v} =
          ↑b.flatten + {v} := by rw [h2, h1]
      rw [add_right_cancel hchain, hi]
    · rw [if_neg hcond]
      exact ⟨hs, hi⟩

theorem applyMoves_preserves : ∀ (ds : List Dir) (b : Board), Shaped b → BoardInv b →
    Shaped (applyMoves b ds) ∧ BoardInv (applyMoves b ds)
  | [], _, hs, hi => ⟨hs, hi⟩
  | d :: rest, b, hs, hi => by
    obtain ⟨hs', hi'⟩ := applyMove_preserves b d hs hi
    simpa [applyMoves] using applyMoves_preserves rest _ hs' hi'

theorem applyMove_rejected (b : Board) (d : Dir) (h : (applyMove b d).2 = false) :
    (applyMove b d).1 = b := by
  unfold applyMove at h ⊢
  cases hb : findBlank b with
  | none => rfl
  | some p =>
    obtain ⟨br, bc⟩ := p
    rw [hb] at h
    dsimp only at h ⊢
    by_cases hcond : 0 ≤ (br : ℤ) + rowDelta d ∧ (br : ℤ) + rowDelta d < (ROWS : ℤ) ∧
        0 ≤ (bc : ℤ) + colDelta d ∧ (bc : ℤ) + colDelta d < (COLS : ℤ)
    · rw [if_pos hcond] at h
      exact absurd h (by simp)
    · rw [if_neg hcond]

theorem shuffle_preserves : ∀ (picks : List Dir) (b : Board), Shaped b → BoardInv b →
    Shaped (shuffleByMoves b picks) ∧ BoardInv (shuffleByMoves b picks)
  | [], _, hs, hi => ⟨hs, hi⟩
  | d :: rest, b, hs, hi => by
    unfold shuffleByMoves
    rw [List.foldl_cons]
    by_cases h : canMove b d = true
    · obtain ⟨hs', hi'⟩ := applyMove_preserves b d hs hi
      simpa [h, shuffleByMoves] using shuffle_preserves rest _ hs' hi'
    · simpa [h, shuffleByMoves] using shuffle_preserves rest b hs hi

theorem count_of_inv (b : Board) (hi : BoardInv b) (v : ℕ) (hv : v < ROWS * COLS) :
    b.flatten.count v = 1 := by
  have hcount := congrArg (Multiset.count v) hi
  rw [Multiset.coe_count, Multiset.coe_count] at hcount
  rw [hcount]
  exact List.count_eq_one_of_mem (List.nodup_range _) (List.mem_range.2 hv)

theorem solved_shaped_inv : Shaped createEmptyBoard ∧ BoardInv createEmptyBoard := by
  constructor <;> decide

/-- C8: starting from the solved board, after any sequence of applyMove
calls (legal moves applied, illegal moves rejected) the board contains
exactly one 0 and each value of {0, …, R·C−1} exactly once; a rejected
move leaves the board unchanged; the same invariant holds along any
move-based shuffle. -/
theorem C8_board_invariant :
    (∀ ds : List Dir, ∀ v < ROWS * COLS,
      (applyMoves createEmptyBoard ds).flatten.count v = 1) ∧
    (∀ (b : Board) (d : Dir), (applyMove b d).2 = false → (applyMove b d).1 = b) ∧
    (∀ picks : List Dir, ∀ v < ROWS * COLS,
      (shuffleByMoves createEmptyBoard picks).flatten.count v = 1) := by
  refine ⟨?_, applyMove_rejected, ?_⟩
  · intro ds v hv
    obtain ⟨_, hi⟩ :=
      applyMoves_preserves ds createEmptyBoard solved_shaped_inv.1 solved_shaped_inv.2
    exact count_of_inv _ hi v hv
  · intro picks v hv
    obtain ⟨_, hi⟩ :=
      shuffle_preserves picks createEmptyBoard solved_shaped_inv.1 solved_shaped_inv.2
    exact count_of_inv _ hi v hv

theorem C8_board_invariant_witness :
    ((0 : ℕ) < ROWS * COLS ∧
      (applyMoves createEmptyBoard [Dir.U, Dir.L, Dir.D]).flatten.count 0 = 1) ∧
    ((applyMove createEmptyBoard Dir.D).2 = false ∧
      (applyMove createEmptyBoard Dir.D).1 = createEmptyBoard) :=
  ⟨⟨by decide, C8_board_invariant.1 [Dir.U, Dir.L, Dir.D] 0 (by decide)⟩,
   ⟨by decide, C8_board_invariant.2.1 createEmptyBoard Dir.D (by decide)⟩⟩

/-- C9: for a board with a blank, a move in direction d is legal iff the
cell adjacent to the blank in the source direction lies within the grid
bounds, and applying a legal move swaps that source cell's value into
the blank and zeroes the source; on the solved 3×4 board, move U yields
[[1,2,3,4],[5,6,7,0],[9,10,11,8]], which is not solved. -/
theorem C9_move_legality :
    (∀ (b : Board) (br bc : ℕ) (d : Dir), findBlank b = some (br, bc) →
      (canMove b d = true ↔
        0 ≤ (br : ℤ) + rowDelta d ∧ (br : ℤ) + rowDelta d < (ROWS : ℤ) ∧
        0 ≤ (bc : ℤ) + colDelta d ∧ (bc : ℤ) + colDelta d < (COLS : ℤ)) ∧
      ((applyMove b d).2 = canMove b d) ∧
      (canMove b d = true →
        (applyMove b d).1 =
          setCell (setCell b br bc
              (getCell b ((br : ℤ) + rowDelta d).toNat ((bc : ℤ) + colDelta d).toNat))
            ((br : ℤ) + rowDelta d).toNat ((bc : ℤ) + colDelta d).toNat 0)) ∧
    (applyMove createEmptyBoard Dir.U = ([[1,2,3,4],[5,6,7,0],[9,10,11,8]], true) ∧
      isSolved (applyMove createEmptyBoard Dir.U).1 = false ∧
      isSolved createEmptyBoard = true) := by
  constructor
  · intro b br bc d hb
    unfold canMove applyMove
    rw [hb]
    dsimp only
    by_cases hcond : 0 ≤ (br : ℤ) + rowDelta d ∧ (br : ℤ) + rowDelta d < (ROWS : ℤ) ∧
        0 ≤ (bc : ℤ) + colDelta d ∧ (bc : ℤ) + colDelta d < (COLS : ℤ)
    · rw [if_pos hcond]
      refine ⟨by simp [hcond], by simp [hcond], fun _ => rfl⟩
    · rw [if_neg hcond]
      refine ⟨by simp [hcond], by simp [hcond], fun h => absurd ?_ hcond⟩
      simpa using h
  · exact ⟨by decide, by decide, by decide⟩

theorem C9_move_legality_witness :
    findBlank createEmptyBoard = some (2, 3) ∧
    (applyMove createEmptyBoard Dir.U).2 = canMove createEmptyBoard Dir.U :=
  ⟨by decide, (C9_move_legality.1 createEmptyBoard 2 3 Dir.U (by decide)).2.1⟩

/-- C10: the arrow-key mapping starts in the inverted state — ArrowUp
issues D, ArrowDown issues U, ArrowLeft issues R, ArrowRight issues L —
and each press of I toggles all four mappings to their opposites. -/
theorem C10_inverted_arrow_mapping :
    controlsInvertedDefault = true ∧
    arrowToDir controlsInvertedDefault .up = .D ∧
    arrowToDir controlsInvertedDefault .down = .U ∧
    arrowToDir controlsInvertedDefault .left = .R ∧
    arrowToDir controlsInvertedDefault .right = .L ∧
    ∀ (inv : Bool) (k : ArrowKey),
      arrowToDir (toggleInverted inv) k = oppositeDir (arrowToDir inv k) := by
  refine ⟨rfl, rfl, rfl, rfl, rfl, ?_⟩
  intro inv k
  cases inv <;> cases k <;> rfl

end SlidePuzzle

/-! ## Theorems: constellation edge engine -/

namespace Constellation

theorem clearTempFlags_length : ∀ (L : List ℕ) (stars : List Star),
    (clearTempFlags stars L).length = stars.length
  | [], _ => rfl
  | i :: rest, stars => by
    rw [clearTempFlags, clearTempFlags_length rest]
    exact List.length_set ..

theorem clearTempFlags_spec : ∀ (L : List ℕ) (stars : List Star) (i : ℕ),
    ((clearTempFlags stars L).getD i defaultStar).linkedTemp = true →
    (stars.getD i defaultStar).linkedTemp = true ∧ i ∉ L
  | [], _, _, h => ⟨h, by simp⟩
  | j :: rest, stars, i, h => by
    rw [clearTempFlags] at h
    obtain ⟨h1, h2⟩ := clearTempFlags_spec rest _ i h
    by_cases hij : j = i
    · subst hij
      by_cases hlen : j < stars.length
      · rw [SlidePuzzle.getD_set_self _ _ _ _ hlen] at h1
        exact absurd h1 (by simp)
      · rw [List.set_eq_of_length_le (Nat.le_of_not_lt hlen)] at h1
        rw [List.getD_eq_default _ _ (Nat.le_of_not_lt hlen)] at h1
        exact absurd h1 (by simp [defaultStar])
    · rw [SlidePuzzle.getD_set_ne _ _ _ _ _ hij] at h1
      refine ⟨h1, ?_⟩
      simp only [List.mem_cons, not_or]
      exact ⟨fun hji => hij hji.symm, h2⟩

theorem markTempLinked_frame (st : ConstState) (i : ℕ) :
    (markTempLinked st i).edges = st.edges ∧
    (markTempLinked st i).matchedEdges = st.matchedEdges ∧
    (markTempLinked st i).permanentLines = st.permanentLines ∧
    (markTempLinked st i).creationMode = st.creationMode ∧
    (markTempLinked st i).dragging = st.dragging ∧
    (markTempLinked st i).tempLinesThisClick = st.tempLinesThisClick ∧
    (markTempLinked st i).edgesThisClick = st.edgesThisClick ∧
    (markTempLinked st i).currentPath = st.currentPath := by
  unfold markTempLinked
  split <;> simp

theorem finalize_frame (st : ConstState) (a b : ℕ) :
    (finalizeSegmentAndStartNew st a b).edges = st.edges ∧
    (finalizeSegmentAndStartNew st a b).matchedEdges = st.matchedEdges ∧
    (finalizeSegmentAndStartNew st a b).permanentLines = st.permanentLines ∧
    (finalizeSegmentAndStartNew st a b).creationMode = st.creationMode ∧
    (finalizeSegmentAndStartNew st a b).dragging = st.dragging := by
  unfold finalizeSegmentAndStartNew
  dsimp only
  obtain ⟨he1, hm1, hp1, hc1, hd1, _, _, _⟩ := markTempLinked_frame { st with
    tempLinesThisClick := st.tempLinesThisClick + 1,
    edgesThisClick := st.edgesThisClick ++ [edgeKey a b] } a
  obtain ⟨he2, hm2, hp2, hc2, hd2, _, _, _⟩ := markTempLinked_frame (markTempLinked { st with
    tempLinesThisClick := st.tempLinesThisClick + 1,
    edgesThisClick := st.edgesThisClick ++ [edgeKey a b] } a) b
  refine ⟨?_, ?_, ?_, ?_, ?_⟩ <;> simp [he2, he1, hm2, hm1, hp2, hp1, hc2, hc1, hd2, hd1]

theorem onPointerDown_preserves_sub (st : ConstState) (hit : Option ℕ)
    (hcm : st.creationMode = false) (hsub : st.matchedEdges ⊆ st.edges) :
    (onPointerDown st hit).creationMode = false ∧ (onPointerDown st hit).edges = st.edges ∧
    (onPointerDown st hit).matchedEdges ⊆ st.edges := by
  cases hit with
  | none => exact ⟨hcm, rfl, hsub⟩
  | some idx =>
    unfold onPointerDown dropCurrentClick
    dsimp only
    split
    · split
      · exact ⟨hcm, rfl, hsub⟩
      · exact ⟨hcm, rfl, hsub⟩
    · exact ⟨hcm, rfl, hsub⟩

theorem onPointerMove_preserves_sub (st : ConstState) (hits : List ℕ)
    (hcm : st.creationMode = false) (hsub : st.matchedEdges ⊆ st.edges) :
    (onPointerMove st hits).creationMode = false ∧ (onPointerMove st hits).edges = st.edges ∧
    (onPointerMove st hits).matchedEdges ⊆ st.edges := by
  unfold onPointerMove
  by_cases hdrag : st.dragging = true
  · rw [if_pos hdrag]
    cases hlast : st.currentPath.getLast? with
    | none => exact ⟨hcm, rfl, hsub⟩
    | some last =>
      dsimp only
      cases hfind : hits.find? (fun i => i != last) with
      | none => exact ⟨hcm, rfl, hsub⟩
      | some idx =>
        obtain ⟨he, hm, _, hc, _⟩ := finalize_frame st last idx
        exact ⟨by rw [hc]; exact hcm, he, by rw [hm]; exact hsub⟩
  · rw [if_neg hdrag]
    exact ⟨hcm, rfl, hsub⟩

theorem onPointerUp_preserves_sub (st : ConstState)
    (hcm : st.creationMode = false) (hsub : st.matchedEdges ⊆ st.edges) :
    (onPointerUp st).creationMode = false ∧ (onPointerUp st).edges = st.edges ∧
    (onPointerUp st).matchedEdges ⊆ st.edges := by
  unfold onPointerUp
  by_cases hdrag : st.dragging = true
  · rw [if_pos hdrag]
    dsimp only
    by_cases hbad : (st.edgesThisClick.any fun e => !st.creationMode && !(decide (e ∈ st.edges)))
        = true
    · rw [if_pos hbad]
      unfold dropCurrentClick
      exact ⟨hcm, rfl, hsub⟩
    · rw [if_neg hbad]
      rw [Bool.not_eq_true] at hbad
      have hallowed : ∀ e ∈ st.edgesThisClick, e ∈ st.edges := by
        intro e he
        have := List.any_eq_false.mp hbad e he
        simpa [hcm] using this
      unfold commitTempLines
      dsimp only
      rw [if_neg (by simp [hcm])]
      refine ⟨hcm, rfl, Finset.union_subset hsub ?_⟩
      intro e he
      exact hallowed e (List.mem_toFinset.mp he)
  · rw [if_neg hdrag]
    exact ⟨hcm, rfl, hsub⟩

theorem step_preserves_sub (st : ConstState) (e : PEvent)
    (hcm : st.creationMode = false) (hsub : st.matchedEdges ⊆ st.edges) :
    (step st e).creationMode = false ∧ (step st e).edges = st.edges ∧
    (step st e).matchedEdges ⊆ st.edges := by
  cases e with
  | down hit => exact onPointerDown_preserves_sub st hit hcm hsub
  | move hits => exact onPointerMove_preserves_sub st hits hcm hsub
  | up => exact onPointerUp_preserves_sub st hcm hsub

theorem run_preserves_sub : ∀ (evs : List PEvent) (st : ConstState),
    st.creationMode = false → st.matchedEdges ⊆ st.edges →
    (run st evs).creationMode = false ∧ (run st evs).edges = st.edges ∧
    (run st evs).matchedEdges ⊆ st.edges
  | [], _, hcm, hsub => ⟨hcm, rfl, hsub⟩
  | e :: rest, st, hcm, hsub => by
    obtain ⟨hc, he, hm⟩ := step_preserves_sub st e hcm hsub
    obtain ⟨hc', he', hm'⟩ := run_preserves_sub rest (step st e) hc (by rw [he]; exact hm)
    refine ⟨hc', ?_, ?_⟩
    · show (run (step st e) rest).edges = st.edges
      rw [he', he]
    · show (run (step st e) rest).matchedEdges ⊆ st.edges
      rw [← he]
      exact hm'

/-- C6: outside creation mode the invariant MatchedEdges ⊆ RequiredEdges
holds after any sequence of pointer gestures: starting from any state
satisfying it with creation mode off, every event sequence leaves the
committed matched-edge set inside the fixed required-edge set. -/
theorem C6_matched_subset_required (st : ConstState) (evs : List PEvent)
    (hcm : st.creationMode = false) (hsub : st.matchedEdges ⊆ st.edges) :
    (run st evs).matchedEdges ⊆ st.edges :=
  (run_preserves_sub evs st hcm hsub).2.2

theorem C6_matched_subset_required_witness :
    startState3.creationMode = false ∧ startState3.matchedEdges ⊆ startState3.edges ∧
    (run startState3
        [PEvent.down (some 0), PEvent.move [1], PEvent.move [2], PEvent.up]).matchedEdges ⊆
      startState3.edges :=
  ⟨rfl, by decide,
    C6_matched_subset_required startState3
      [PEvent.down (some 0), PEvent.move [1], PEvent.move [2], PEvent.up] rfl (by decide)⟩

/-- C5: a gesture whose tentative edges contain an edge outside the
required set commits nothing: pointer-down and pointer-move never touch
MatchedEdges or the permanent lines, and pointer-up on such a gesture
drops everything — MatchedEdges and permanent lines keep their
pre-gesture values and all temporary lines, recorded edges and
temporary linked flags are discarded.  Concretely, dragging 0→1→2 with
required edges {(0,1)} records tentative edges (0,1),(1,2) and
pointer-up leaves MatchedEdges empty with zero permanent lines. -/
theorem C5_gesture_atomicity :
    (∀ (st : ConstState) (hit : Option ℕ),
      (onPointerDown st hit).matchedEdges = st.matchedEdges ∧
      (onPointerDown st hit).permanentLines = st.permanentLines) ∧
    (∀ (st : ConstState) (hits : List ℕ),
      (onPointerMove st hits).matchedEdges = st.matchedEdges ∧
      (onPointerMove st hits).permanentLines = st.permanentLines) ∧
    (∀ st : ConstState, st.dragging = true → st.creationMode = false →
      (∃ e ∈ st.edgesThisClick, e ∉ st.edges) → TempRecorded st →
      (onPointerUp st).matchedEdges = st.matchedEdges ∧
      (onPointerUp st).permanentLines = st.permanentLines ∧
      (onPointerUp st).tempLinesThisClick = 0 ∧
      (onPointerUp st).edgesThisClick = [] ∧
      (onPointerUp st).starsLinkedThisClick = [] ∧
      ∀ i, ((onPointerUp st).stars.getD i defaultStar).linkedTemp = false) ∧
    ((run startState3 [PEvent.down (some 0), PEvent.move [1], PEvent.move [2]]).edgesThisClick =
        [(0, 1), (1, 2)] ∧
      (run startState3
          [PEvent.down (some 0), PEvent.move [1], PEvent.move [2], PEvent.up]).matchedEdges =
        ∅ ∧
      (run startState3
          [PEvent.down (some 0), PEvent.move [1], PEvent.move [2], PEvent.up]).permanentLines =
        0) := by
  refine ⟨?_, ?_, ?_, by decide, by decide, by decide⟩
  · intro st hit
    cases hit with
    | none => exact ⟨rfl, rfl⟩
    | some idx =>
      unfold onPointerDown dropCurrentClick
      dsimp only
      split
      · split
        · exact ⟨rfl, rfl⟩
        · exact ⟨rfl, rfl⟩
      · exact ⟨rfl, rfl⟩
  · intro st hits
    unfold onPointerMove
    by_cases hdrag : st.dragging = true
    · rw [if_pos hdrag]
      cases hlast : st.currentPath.getLast? with
      | none => exact ⟨rfl, rfl⟩
      | some last =>
        dsimp only
        cases hfind : hits.find? (fun i => i != last) with
        | none => exact ⟨rfl, rfl⟩
        | some idx =>
          obtain ⟨_, hm, hp, _, _⟩ := finalize_frame st last idx
          exact ⟨hm, hp⟩
    · rw [if_neg hdrag]
      exact ⟨rfl, rfl⟩
  · intro st hdrag hcm hbad hrec
    obtain ⟨e0, he0mem, he0not⟩ := hbad
    have hany : (st.edgesThisClick.any fun e => !st.creationMode && !(decide (e ∈ st.edges)))
        = true :=
      List.any_eq_true.mpr ⟨e0, he0mem, by simp [hcm, he0not]⟩
    unfold onPointerUp
    rw [if_pos hdrag]
    dsimp only
    rw [if_pos hany]
    unfold dropCurrentClick
    refine ⟨rfl, rfl, rfl, rfl, rfl, ?_⟩
    intro i
    by_cases hlen : i < st.stars.length
    · by_contra hne
      have hflag : ((clearTempFlags st.stars st.starsLinkedThisClick).getD i
          defaultStar).linkedTemp = true := Bool.not_eq_false _ ▸ hne
      obtain ⟨horig, hnotin⟩ := clearTempFlags_spec st.starsLinkedThisClick st.stars i hflag
      exact hnotin (hrec i hlen horig)
    · have hge : st.stars.length ≤ i := Nat.le_of_not_lt hlen
      rw [List.getD_eq_default _ _ (by rw [clearTempFlags_length]; exact hge)]
      rfl

theorem C5_gesture_atomicity_witness :
    (run startState3 [PEvent.down (some 0), PEvent.move [1], PEvent.move [2]]).dragging =
      true ∧
    (run startState3 [PEvent.down (some 0), PEvent.move [1], PEvent.move [2]]).creationMode =
      false ∧
    ((1, 2) ∈
        (run startState3
          [PEvent.down (some 0), PEvent.move [1], PEvent.move [2]]).edgesThisClick ∧
      (1, 2) ∉
        (run startState3 [PEvent.down (some 0), PEvent.move [1], PEvent.move [2]]).edges) ∧
    TempRecorded (run startState3 [PEvent.down (some 0), PEvent.move [1], PEvent.move [2]]) ∧
    (onPointerUp
        (run startState3 [PEvent.down (some 0), PEvent.move [1], PEvent.move [2]])).matchedEdges =
      (run startState3 [PEvent.down (some 0), PEvent.move [1], PEvent.move [2]]).matchedEdges ∧
    (onPointerUp
        (run startState3
          [PEvent.down (some 0), PEvent.move [1], PEvent.move [2]])).tempLinesThisClick =
      0 := by
  refine ⟨by decide, by decide, ⟨by decide, by decide⟩, by decide, ?_, ?_⟩
  · exact (C5_gesture_atomicity.2.2.1 _ (by decide) (by decide)
      ⟨(1, 2), by decide, by decide⟩ (by decide)).1
  · exact (C5_gesture_atomicity.2.2.1 _ (by decide) (by decide)
      ⟨(1, 2), by decide, by decide⟩ (by decide)).2.2.1

/-- C7 (code evidence): dragging from star 0 through the shooting star 1
along the required edge (0,1) commits the gesture and permanently links
the shooting star, with no fade and no drop: the pass-through path of
`_onPointerMove` calls `_finalizeSegmentAndStartNew`, which performs no
shooting-star check (the fade-and-drop logic exists only in the
never-called `_appendStarToCurrentPath`). -/
theorem C7_shooting_star_linked_by_passthrough :
    (shootingState.stars.getD 1 defaultStar).shooting = true ∧
    ((run shootingState [PEvent.down (some 0), PEvent.move [1], PEvent.up]).stars.getD 1
        defaultStar).linked = true ∧
    (run shootingState [PEvent.down (some 0), PEvent.move [1], PEvent.up]).matchedEdges =
      {(0, 1)} ∧
    (run shootingState [PEvent.down (some 0), PEvent.move [1], PEvent.up]).permanentLines =
      1 := by
  refine ⟨by decide, by decide, by decide, by decide⟩

end Constellation

/-! ## Theorems: helix motion controller -/

namespace Helix

open Real

theorem complex_ofReal_cos_sin (r θ : ℝ) :
    ((r * Real.cos θ : ℝ) : ℂ) + ((r * Real.sin θ : ℝ) : ℂ) * Complex.I =
      (r : ℂ) * (Complex.cos (θ : ℂ) + Complex.sin (θ : ℂ) * Complex.I) := by
  rw [← Complex.ofReal_cos, ← Complex.ofReal_sin]
  push_cast
  ring

theorem atan2_polar (r θ : ℝ) (hr : 0 < r) :
    ∃ n : ℤ, θ - atan2 (r * Real.sin θ) (r * Real.cos θ) = n * (2 * π) := by
  unfold atan2
  rw [complex_ofReal_cos_sin]
  refine ⟨-⌊(π - θ) / (2 * π)⌋, ?_⟩
  have harg := Complex.arg_mul_cos_add_sin_mul_I_sub hr θ
  push_cast
  linarith [harg]

theorem wrapTo2Pi_cong (θ a : ℝ) (h : ∃ n : ℤ, θ - a = n * (2 * π)) :
    ∃ n : ℤ, θ - wrapTo2Pi a = n * (2 * π) := by
  obtain ⟨n, hn⟩ := h
  unfold wrapTo2Pi
  split
  · exact ⟨n - 1, by push_cast; linarith⟩
  · exact ⟨n, hn⟩

theorem branchTheta_exact (θ w : ℝ) (n : ℤ) (h : θ - w = n * (2 * π)) :
    branchTheta θ w = θ := by
  unfold branchTheta
  have h2π : (2 * π) ≠ 0 := by positivity
  have hq : (θ - w) / (2 * π) = (n : ℝ) := by
    rw [h]
    field_simp
  rw [hq, round_intCast]
  linarith [h]

theorem clampRadius_mem (h : HelixState) (r : ℝ) (hth : 0 ≤ h.thickness) :
    rMin h ≤ clampRadius h r ∧ clampRadius h r ≤ rMax h := by
  have hband : rMin h ≤ rMax h := by
    unfold rMin rMax
    linarith
  constructor
  · exact le_min (le_max_right r (rMin h)) hband
  · exact min_le_right _ _

/-- C3: for every unwrapped angle θ — hence over any range spanning six
or more revolutions, positive or negative — computing the camera
position from θ via the helix mapping and re-deriving the angle
(atan2 normalized to [0, 2π), then the branch θ = wrapped + k·2π with
k = round((lastTheta − wrapped)/2π), seeded with lastTheta = θ) returns
exactly θ, in particular within 1e-6 radians. -/
theorem C3_roundtrip (h : HelixState) (r θ : ℝ)
    (hth : 0 ≤ h.thickness) (hmin : 0 < rMin h) :
    rederiveTheta h (posFromTheta h r θ) θ = θ ∧
    |rederiveTheta h (posFromTheta h r θ) θ - θ| ≤ 1e-6 := by
  have hrc : 0 < clampRadius h r := lt_of_lt_of_le hmin (clampRadius_mem h r hth).1
  have hz : (posFromTheta h r θ).z - h.centerZ = clampRadius h r * Real.sin θ := by
    show h.centerZ + clampRadius h r * Real.sin θ - h.centerZ = _
    ring
  have hx : (posFromTheta h r θ).x - h.centerX = clampRadius h r * Real.cos θ := by
    show h.centerX + clampRadius h r * Real.cos θ - h.centerX = _
    ring
  have hres : rederiveTheta h (posFromTheta h r θ) θ = θ := by
    unfold rederiveTheta wrappedThetaOf
    rw [hz, hx]
    obtain ⟨n, hn⟩ := wrapTo2Pi_cong θ _ (atan2_polar (clampRadius h r) θ hrc)
    exact branchTheta_exact θ _ n hn
  refine ⟨hres, ?_⟩
  rw [hres]
  norm_num

theorem C3_roundtrip_witness :
    0 ≤ sampleHelix.thickness ∧ 0 < rMin sampleHelix ∧
    rederiveTheta sampleHelix (posFromTheta sampleHelix 2 (14 * π)) (14 * π) = 14 * π :=
  ⟨by norm_num [sampleHelix], by norm_num [rMin, sampleHelix],
   (C3_roundtrip sampleHelix 2 (14 * π) (by norm_num [sampleHelix])
     (by norm_num [rMin, sampleHelix])).1⟩

theorem dist_polar (cx cz rc θ : ℝ) (hrc : 0 ≤ rc) :
    Real.sqrt ((cx + rc * Real.cos θ - cx) ^ 2 + (cz + rc * Real.sin θ - cz) ^ 2) = rc := by
  have hsq : (cx + rc * Real.cos θ - cx) ^ 2 + (cz + rc * Real.sin θ - cz) ^ 2
      = rc ^ 2 * (Real.sin θ ^ 2 + Real.cos θ ^ 2) := by ring
  rw [hsq, Real.sin_sq_add_cos_sq, mul_one, Real.sqrt_sq hrc]

theorem updateMovement_dist (h : HelixState) (cam : CameraPos) (mx mz : ℝ)
    (hth : 0 ≤ h.thickness) (hmin : 0 ≤ rMin h) :
    Real.sqrt (((updateMovementHelix h cam mx mz).2.x - h.centerX) ^ 2 +
        ((updateMovementHelix h cam mx mz).2.z - h.centerZ) ^ 2) =
      clampRadius h
        (Real.sqrt ((cam.x + mx - h.centerX) ^ 2 + (cam.z + mz - h.centerZ) ^ 2)) := by
  have hrc : 0 ≤ clampRadius h
      (Real.sqrt ((cam.x + mx - h.centerX) ^ 2 + (cam.z + mz - h.centerZ) ^ 2)) :=
    le_trans hmin (clampRadius_mem h _ hth).1
  exact dist_polar h.centerX h.centerZ _ _ hrc

theorem constrain_dist (h : HelixState) (cam : CameraPos) (we ce : Bool) (refY : ℝ)
    (hth : 0 ≤ h.thickness) (hmin : 0 ≤ rMin h)
    (hin : rMin h ≤ Real.sqrt ((cam.x - h.centerX) ^ 2 + (cam.z - h.centerZ) ^ 2) ∧
      Real.sqrt ((cam.x - h.centerX) ^ 2 + (cam.z - h.centerZ) ^ 2) ≤ rMax h) :
    rMin h ≤ Real.sqrt (((constrainCameraToHelix h cam we ce refY).2.x - h.centerX) ^ 2 +
        ((constrainCameraToHelix h cam we ce refY).2.z - h.centerZ) ^ 2) ∧
    Real.sqrt (((constrainCameraToHelix h cam we ce refY).2.x - h.centerX) ^ 2 +
        ((constrainCameraToHelix h cam we ce refY).2.z - h.centerZ) ^ 2) ≤ rMax h := by
  unfold constrainCameraToHelix
  dsimp only
  split
  · exact hin
  · have hrc : 0 ≤ clampRadius h
        (Real.sqrt ((cam.x - h.centerX) ^ 2 + (cam.z - h.centerZ) ^ 2)) :=
      le_trans hmin (clampRadius_mem h _ hth).1
    rw [dist_polar h.centerX h.centerZ _ _ hrc]
    exact clampRadius_mem h _ hth

/-- C4: for every target point — at any radial distance r ≥ 0 from the
center, including the center itself — after the movement update and the
per-frame helix constraint the camera's radial distance from the center
lies in the closed band [radius − thickness/2, radius + thickness/2]
(for the configured band with 0 ≤ thickness and a nonnegative inner
radius). -/
theorem C4_radius_band (h : HelixState) (cam : CameraPos) (mx mz : ℝ)
    (we ce : Bool) (refY : ℝ) (hth : 0 ≤ h.thickness) (hmin : 0 ≤ rMin h) :
    rMin h ≤ Real.sqrt
        (((moveAndConstrain h cam mx mz we ce refY).2.x - h.centerX) ^ 2 +
          ((moveAndConstrain h cam mx mz we ce refY).2.z - h.centerZ) ^ 2) ∧
    Real.sqrt
        (((moveAndConstrain h cam mx mz we ce refY).2.x - h.centerX) ^ 2 +
          ((moveAndConstrain h cam mx mz we ce refY).2.z - h.centerZ) ^ 2) ≤ rMax h := by
  have hmv := updateMovement_dist h cam mx mz hth hmin
  have hband := clampRadius_mem h
    (Real.sqrt ((cam.x + mx - h.centerX) ^ 2 + (cam.z + mz - h.centerZ) ^ 2)) hth
  exact constrain_dist (updateMovementHelix h cam mx mz).1 (updateMovementHelix h cam mx mz).2
    we ce refY hth hmin ⟨by rw [hmv.symm] at hband; exact hband.1,
      by rw [hmv.symm] at hband; exact hband.2⟩

theorem C4_radius_band_witness :
    0 ≤ sampleHelix.thickness ∧ 0 ≤ rMin sampleHelix ∧
    (rMin sampleHelix ≤ Real.sqrt
        (((moveAndConstrain sampleHelix ⟨0, 10, 0⟩ 0 0 false false 0).2.x -
            sampleHelix.centerX) ^ 2 +
          ((moveAndConstrain sampleHelix ⟨0, 10, 0⟩ 0 0 false false 0).2.z -
            sampleHelix.centerZ) ^ 2) ∧
      Real.sqrt
        (((moveAndConstrain sampleHelix ⟨0, 10, 0⟩ 0 0 false false 0).2.x -
            sampleHelix.centerX) ^ 2 +
          ((moveAndConstrain sampleHelix ⟨0, 10, 0⟩ 0 0 false false 0).2.z -
            sampleHelix.centerZ) ^ 2) ≤ rMax sampleHelix) :=
  ⟨by norm_num [sampleHelix], by norm_num [rMin, sampleHelix],
   C4_radius_band sampleHelix ⟨0, 10, 0⟩ 0 0 false false 0
     (by norm_num [sampleHelix]) (by norm_num [rMin, sampleHelix])⟩

theorem invSign_ne_zero (b : Bool) : invSign b ≠ 0 := by
  unfold invSign
  split <;> norm_num

theorem invSign_abs (b : Bool) : |invSign b| = 1 := by
  unfold invSign
  split <;> simp

theorem helixY_init_close (h : HelixState) (cam : CameraPos) (hp : h.pitch ≠ 0) :
    |helixYOf h (initHelixLastTheta h cam) - cam.y| ≤ |h.pitch| / 2 := by
  have hsp : invSign h.inverted * h.pitch ≠ 0 := mul_ne_zero (invSign_ne_zero _) hp
  have h2π : (2 * π) ≠ 0 := by positivity
  unfold initHelixLastTheta helixYOf
  dsimp only
  rw [if_neg hsp]
  set w := wrappedThetaOf (cam.z - h.centerZ) (cam.x - h.centerX) with hw
  set desired := (cam.y - h.baseY - h.offsetY) * (2 * π) / (invSign h.inverted * h.pitch)
    with hd
  set u := (desired - w) / (2 * π) with hu
  have hueq : u * (2 * π) = desired - w := by
    rw [hu]
    field_simp
  have hdeq : desired * (invSign h.inverted * h.pitch) =
      (cam.y - h.baseY - h.offsetY) * (2 * π) := by
    rw [hd]
    field_simp
  have hcancel : (w + ((round u : ℤ) : ℝ) * (2 * π)) / (2 * π) * (2 * π) =
      w + ((round u : ℤ) : ℝ) * (2 * π) := div_mul_cancel₀ _ h2π
  have key2 : (h.baseY + invSign h.inverted *
      ((w + ((round u : ℤ) : ℝ) * (2 * π)) / (2 * π)) * h.pitch + h.offsetY - cam.y) * (2 * π)
      = (invSign h.inverted * h.pitch * (((round u : ℤ) : ℝ) - u)) * (2 * π) := by
    linear_combination (invSign h.inverted * h.pitch) * hcancel +
      (invSign h.inverted * h.pitch) * hueq + hdeq
  have key := mul_right_cancel₀ h2π key2
  rw [key]
  calc |invSign h.inverted * h.pitch * (((round u : ℤ) : ℝ) - u)|
      = |invSign h.inverted| * |h.pitch| * |((round u : ℤ) : ℝ) - u| := by
        rw [abs_mul, abs_mul]
    _ = |h.pitch| * |((round u : ℤ) : ℝ) - u| := by rw [invSign_abs, one_mul]
    _ ≤ |h.pitch| * (1 / 2) := by
        refine mul_le_mul_of_nonneg_left ?_ (abs_nonneg _)
        rw [abs_sub_comm]
        exact abs_sub_round u
    _ = |h.pitch| / 2 := by ring

theorem constrain_wrap_props (h : HelixState) (cam : CameraPos) (refY : ℝ)
    (hp : 0 < h.pitch)
    (hcond : cam.y ≥ refY + 2 * h.pitch ∨ cam.y ≤ refY - 2 * h.pitch) :
    (constrainCameraToHelix h cam true true refY).2.x = cam.x ∧
    (constrainCameraToHelix h cam true true refY).2.z = cam.z ∧
    (constrainCameraToHelix h cam true true refY).1.lastTheta =
      initHelixLastTheta h ⟨cam.x,
        if cam.y ≥ refY + 2 * h.pitch then cam.y - 3 * h.pitch else cam.y + 3 * h.pitch,
        cam.z⟩ ∧
    |(constrainCameraToHelix h cam true true refY).2.y -
        (if cam.y ≥ refY + 2 * h.pitch then cam.y - 3 * h.pitch else cam.y + 3 * h.pitch)| ≤
      h.pitch / 2 := by
  unfold constrainCameraToHelix
  dsimp only
  rw [if_pos ⟨rfl, hcond, rfl⟩]
  refine ⟨rfl, rfl, rfl, ?_⟩
  have hclose := helixY_init_close h ⟨cam.x,
    if cam.y ≥ refY + 2 * h.pitch then cam.y - 3 * h.pitch else cam.y + 3 * h.pitch, cam.z⟩
    (ne_of_gt hp)
  rw [abs_of_pos hp] at hclose
  exact hclose

/-- C2 (amended): whenever a revolution wrap fires (camera.y beyond the
2·pitch trigger, cooldown elapsed, wrap enabled) and the overshoot past
the trigger is at most 2.5·pitch, the wrap translates camera.y by
3·pitch toward the reference (up to the ≤ pitch/2 canonical-recompute
correction), recomputes lastTheta from the new y and current XZ, leaves
X and Z unchanged, and lands camera.y inside
[referencePose.y − 2·pitch, referencePose.y + 2·pitch]. -/
theorem C2_wrap_amended (h : HelixState) (cam : CameraPos) (refY : ℝ)
    (hp : 0 < h.pitch)
    (hcond : (refY + 2 * h.pitch ≤ cam.y ∧ cam.y ≤ refY + (9 / 2) * h.pitch) ∨
      (refY - (9 / 2) * h.pitch ≤ cam.y ∧ cam.y ≤ refY - 2 * h.pitch)) :
    (constrainCameraToHelix h cam true true refY).2.x = cam.x ∧
    (constrainCameraToHelix h cam true true refY).2.z = cam.z ∧
    (constrainCameraToHelix h cam true true refY).1.lastTheta =
      initHelixLastTheta h ⟨cam.x,
        if cam.y ≥ refY + 2 * h.pitch then cam.y - 3 * h.pitch else cam.y + 3 * h.pitch,
        cam.z⟩ ∧
    refY - 2 * h.pitch ≤ (constrainCameraToHelix h cam true true refY).2.y ∧
    (constrainCameraToHelix h cam true true refY).2.y ≤ refY + 2 * h.pitch := by
  have hdisj : cam.y ≥ refY + 2 * h.pitch ∨ cam.y ≤ refY - 2 * h.pitch := by
    rcases hcond with ⟨h1, _⟩ | ⟨_, h2⟩
    · exact Or.inl h1
    · exact Or.inr h2
  obtain ⟨hx, hz, hlt, hy⟩ := constrain_wrap_props h cam refY hp hdisj
  have hband : refY - 2 * h.pitch ≤ (constrainCameraToHelix h cam true true refY).2.y ∧
      (constrainCameraToHelix h cam true true refY).2.y ≤ refY + 2 * h.pitch := by
    rcases hcond with ⟨h1, h2⟩ | ⟨h1, h2⟩
    · rw [if_pos h1] at hy
      obtain ⟨ha, hb⟩ := abs_le.mp hy
      constructor <;> linarith
    · rw [if_neg (by simp only [ge_iff_le, not_le]; linarith)] at hy
      obtain ⟨ha, hb⟩ := abs_le.mp hy
      constructor <;> linarith
  exact ⟨hx, hz, hlt, hband.1, hband.2⟩

/-- C2 (counterexample to the claim as stated): with pitch 2, reference
y = 0 and camera y = 12, the wrap fires (threshold 4, cooldown elapsed,
wrap enabled) yet after the single wrap camera.y is at least 5, still
outside [−4, 4]: a single wrap need not resolve the out-of-band
condition. -/
theorem C2_wrap_counterexample :
    (⟨1, 12, 0⟩ : CameraPos).y ≥ 0 + 2 * wrapHelix.pitch ∧
    ¬((constrainCameraToHelix wrapHelix ⟨1, 12, 0⟩ true true 0).2.y ≤
        0 + 2 * wrapHelix.pitch) := by
  have hpitch : wrapHelix.pitch = 2 := rfl
  have hp : (0 : ℝ) < wrapHelix.pitch := by rw [hpitch]; norm_num
  have hup : (⟨1, 12, 0⟩ : CameraPos).y ≥ 0 + 2 * wrapHelix.pitch := by
    show (12 : ℝ) ≥ 0 + 2 * wrapHelix.pitch
    rw [hpitch]
    norm_num
  obtain ⟨_, _, _, hy⟩ :=
    constrain_wrap_props wrapHelix ⟨1, 12, 0⟩ 0 hp (Or.inl hup)
  rw [if_pos hup] at hy
  obtain ⟨ha, hb⟩ := abs_le.mp hy
  refine ⟨hup, fun hle => ?_⟩
  rw [hpitch] at ha hb hle
  have h12 : (⟨1, 12, 0⟩ : CameraPos).y = 12 := rfl
  rw [h12] at ha hb
  linarith

theorem C2_wrap_amended_witness :
    0 < wrapHelix.pitch ∧
    (0 + 2 * wrapHelix.pitch ≤ (⟨1, 4, 0⟩ : CameraPos).y ∧
      (⟨1, 4, 0⟩ : CameraPos).y ≤ 0 + (9 / 2) * wrapHelix.pitch) ∧
    (constrainCameraToHelix wrapHelix ⟨1, 4, 0⟩ true true 0).2.x = 1 ∧
    0 - 2 * wrapHelix.pitch ≤ (constrainCameraToHelix wrapHelix ⟨1, 4, 0⟩ true true 0).2.y ∧
    (constrainCameraToHelix wrapHelix ⟨1, 4, 0⟩ true true 0).2.y ≤ 0 + 2 * wrapHelix.pitch := by
  have hpitch : wrapHelix.pitch = 2 := rfl
  have happ := C2_wrap_amended wrapHelix ⟨1, 4, 0⟩ 0 (by rw [hpitch]; norm_num)
    (Or.inl ⟨by show (0:ℝ) + 2 * wrapHelix.pitch ≤ 4; rw [hpitch]; norm_num,
      by show (4:ℝ) ≤ 0 + (9 / 2) * wrapHelix.pitch; rw [hpitch]; norm_num⟩)
  exact ⟨by rw [hpitch]; norm_num,
    ⟨by show (0:ℝ) + 2 * wrapHelix.pitch ≤ 4; rw [hpitch]; norm_num,
      by show (4:ℝ) ≤ 0 + (9 / 2) * wrapHelix.pitch; rw [hpitch]; norm_num⟩,
    happ.1, happ.2.2.2.1, happ.2.2.2.2⟩

theorem atan2_of_pos (y x : ℝ) (hx : 0 < x) : atan2 y x = Real.arctan (y / x) := by
  have hs : (0 : ℝ) < Real.sqrt (1 + (y / x) ^ 2) := Real.sqrt_pos.mpr (by positivity)
  have hr : 0 < x * Real.sqrt (1 + (y / x) ^ 2) := mul_pos hx hs
  have hmem : Real.arctan (y / x) ∈ Set.Ioc (-π) π := by
    constructor
    · have h1 := Real.neg_pi_div_two_lt_arctan (y / x)
      have h2 := Real.pi_pos
      linarith
    · have h1 := Real.arctan_lt_pi_div_two (y / x)
      have h2 := Real.pi_pos
      linarith
  have harg := Complex.arg_mul_cos_add_sin_mul_I hr hmem
  have hxx : x * Real.sqrt (1 + (y / x) ^ 2) * Real.cos (Real.arctan (y / x)) = x := by
    rw [Real.cos_arctan]
    field_simp
  have hyy : x * Real.sqrt (1 + (y / x) ^ 2) * Real.sin (Real.arctan (y / x)) = y := by
    rw [Real.sin_arctan]
    field_simp
  unfold atan2
  have hcplx : ((x : ℝ) : ℂ) + ((y : ℝ) : ℂ) * Complex.I =
      ((x * Real.sqrt (1 + (y / x) ^ 2) : ℝ) : ℂ) *
        (Complex.cos ((Real.arctan (y / x) : ℝ) : ℂ) +
          Complex.sin ((Real.arctan (y / x) : ℝ) : ℂ) * Complex.I) := by
    rw [← complex_ofReal_cos_sin, hxx, hyy]
  rw [hcplx, harg]

theorem arctan_forty_second_bounds :
    0.0237 < Real.arctan (1 / 42) ∧ Real.arctan (1 / 42) < 0.02381 := by
  constructor
  · have hcos : (0 : ℝ) < Real.cos 0.0237 := by
      have := Real.one_sub_sq_div_two_le_cos (x := (0.0237 : ℝ))
      nlinarith
    have htan : Real.tan 0.0237 < 1 / 42 := by
      rw [Real.tan_eq_sin_div_cos, div_lt_iff₀ hcos]
      have hsin : Real.sin 0.0237 ≤ 0.0237 := Real.sin_le (by norm_num)
      have hc := Real.one_sub_sq_div_two_le_cos (x := (0.0237 : ℝ))
      have hc1 : Real.cos 0.0237 ≤ 1 := Real.cos_le_one _
      nlinarith
    have hpi := Real.pi_gt_three
    have h1 : Real.arctan (Real.tan 0.0237) = 0.0237 :=
      Real.arctan_tan (by nlinarith) (by nlinarith)
    calc (0.0237 : ℝ) = Real.arctan (Real.tan 0.0237) := h1.symm
      _ < Real.arctan (1 / 42) := Real.arctan_strictMono htan
  · have hpos : 0 < Real.arctan (1 / 42) := by
      have h0 : Real.arctan 0 < Real.arctan (1 / 42) := Real.arctan_strictMono (by norm_num)
      rwa [Real.arctan_zero] at h0
    have hlt : Real.arctan (1 / 42) < Real.tan (Real.arctan (1 / 42)) :=
      Real.lt_tan hpos (Real.arctan_lt_pi_div_two _)
    rw [Real.tan_arctan] at hlt
    nlinarith

theorem branchTheta_seed_zero (w : ℝ) (h1 : -π < w) (h2 : w ≤ π) : branchTheta 0 w = w := by
  unfold branchTheta
  have h2π : (0 : ℝ) < 2 * π := by positivity
  have hz : round ((0 - w) / (2 * π)) = 0 := by
    rw [round_eq, Int.floor_eq_zero_iff, Set.mem_Ico]
    have hle : -(1 / 2 : ℝ) ≤ (0 - w) / (2 * π) := by
      rw [le_div_iff₀ h2π]
      linarith
    have hlt : (0 - w) / (2 * π) < 1 / 2 := by
      rw [div_lt_iff₀ h2π]
      linarith
    constructor <;> linarith
  rw [hz]
  push_cast
  ring

/-- C1: in helix mode with a nonzero movement intent, the new camera
pose equals the spec contract — XZ at center + rClamped·(cosθ, sinθ)
with θ the continuity-selected branch of the target's wrapped angle and
rClamped the band clamp of the target's radial distance, and
y = baseY + sign(inverted)·(θ/2π)·pitch + offsetY.  Concretely, with
center (0,0), radius 2, thickness 0.6, pitch 2, inverted, baseY 10,
offsetY 0, lastTheta 0 and target XZ (2.1, 0.05): the selected θ is
within 1e-3 of 0.0238 rad, rTarget = √4.4125 ≈ 2.1006 lies inside the
band and is left unclamped, and the new y is within 1e-3 of 9.9924. -/
theorem C1_movement_contract :
    (∀ (h : HelixState) (cam : CameraPos) (mx mz : ℝ),
      (updateMovementHelix h cam mx mz).2 = contractCameraPos h (cam.x + mx) (cam.z + mz)) ∧
    |(updateMovementHelix sampleHelix ⟨2, 10, 0⟩ 0.1 0.05).1.lastTheta - 0.0238| < 1e-3 ∧
    rMin sampleHelix ≤ Real.sqrt ((2.1 : ℝ) ^ 2 + 0.05 ^ 2) ∧
    Real.sqrt ((2.1 : ℝ) ^ 2 + 0.05 ^ 2) ≤ rMax sampleHelix ∧
    clampRadius sampleHelix (Real.sqrt ((2.1 : ℝ) ^ 2 + 0.05 ^ 2)) =
      Real.sqrt ((2.1 : ℝ) ^ 2 + 0.05 ^ 2) ∧
    |Real.sqrt ((2.1 : ℝ) ^ 2 + 0.05 ^ 2) - 2.1006| < 1e-3 ∧
    |(updateMovementHelix sampleHelix ⟨2, 10, 0⟩ 0.1 0.05).2.y - 9.9924| < 1e-3 := by
  obtain ⟨hlo, hhi⟩ := arctan_forty_second_bounds
  have hpi3 := Real.pi_gt_three
  have hpid2 := Real.pi_gt_d2
  have hpid2' := Real.pi_lt_d2
  -- the wrapped angle of the target (2.1, 0.05) is arctan (1/42)
  have hw : wrappedThetaOf ((⟨2, 10, 0⟩ : CameraPos).z + 0.05 - sampleHelix.centerZ)
      ((⟨2, 10, 0⟩ : CameraPos).x + 0.1 - sampleHelix.centerX) = Real.arctan (1 / 42) := by
    have hz : (⟨2, 10, 0⟩ : CameraPos).z + 0.05 - sampleHelix.centerZ = (0.05 : ℝ) := by
      show (0 : ℝ) + 0.05 - 0 = 0.05
      norm_num
    have hx : (⟨2, 10, 0⟩ : CameraPos).x + 0.1 - sampleHelix.centerX = (2.1 : ℝ) := by
      show (2 : ℝ) + 0.1 - 0 = 2.1
      norm_num
    rw [hz, hx]
    unfold wrappedThetaOf wrapTo2Pi
    rw [atan2_of_pos 0.05 2.1 (by norm_num)]
    have h542 : (0.05 : ℝ) / 2.1 = 1 / 42 := by norm_num
    rw [h542, if_neg (not_lt.mpr (by linarith))]
  -- the selected branch is exactly arctan (1/42)
  have htheta : (updateMovementHelix sampleHelix ⟨2, 10, 0⟩ 0.1 0.05).1.lastTheta =
      Real.arctan (1 / 42) := by
    show branchTheta sampleHelix.lastTheta
      (wrappedThetaOf ((⟨2, 10, 0⟩ : CameraPos).z + 0.05 - sampleHelix.centerZ)
        ((⟨2, 10, 0⟩ : CameraPos).x + 0.1 - sampleHelix.centerX)) = _
    rw [hw]
    show branchTheta 0 (Real.arctan (1 / 42)) = Real.arctan (1 / 42)
    exact branchTheta_seed_zero _ (by linarith) (by linarith)
  -- radial facts
  have hrt_lo : (2.1005 : ℝ) ≤ Real.sqrt ((2.1 : ℝ) ^ 2 + 0.05 ^ 2) := by
    rw [Real.le_sqrt' (by norm_num)]
    norm_num
  have hrt_hi : Real.sqrt ((2.1 : ℝ) ^ 2 + 0.05 ^ 2) < 2.1006 := by
    rw [Real.sqrt_lt' (by norm_num)]
    norm_num
  have hrmin : rMin sampleHelix = 1.7 := by norm_num [rMin, sampleHelix]
  have hrmax : rMax sampleHelix = 2.3 := by norm_num [rMax, sampleHelix]
  have hband_lo : rMin sampleHelix ≤ Real.sqrt ((2.1 : ℝ) ^ 2 + 0.05 ^ 2) := by
    rw [hrmin]
    linarith
  have hband_hi : Real.sqrt ((2.1 : ℝ) ^ 2 + 0.05 ^ 2) ≤ rMax sampleHelix := by
    rw [hrmax]
    linarith
  have hclamp : clampRadius sampleHelix (Real.sqrt ((2.1 : ℝ) ^ 2 + 0.05 ^ 2)) =
      Real.sqrt ((2.1 : ℝ) ^ 2 + 0.05 ^ 2) := by
    unfold clampRadius
    rw [max_eq_left hband_lo, min_eq_left hband_hi]
  -- the new y follows the vertical mapping at that branch
  have hy : (updateMovementHelix sampleHelix ⟨2, 10, 0⟩ 0.1 0.05).2.y =
      helixYOf sampleHelix (Real.arctan (1 / 42)) := by
    show helixYOf sampleHelix
      ((updateMovementHelix sampleHelix ⟨2, 10, 0⟩ 0.1 0.05).1.lastTheta) = _
    rw [htheta]
  have hYeq : helixYOf sampleHelix (Real.arctan (1 / 42)) =
      10 - Real.arctan (1 / 42) / (2 * π) * 2 := by
    unfold helixYOf invSign
    norm_num [sampleHelix]
    ring
  have hq_hi : Real.arctan (1 / 42) / (2 * π) < 0.0038 := by
    rw [div_lt_iff₀ (by positivity)]
    nlinarith
  have hq_lo : (0.00376 : ℝ) < Real.arctan (1 / 42) / (2 * π) := by
    rw [lt_div_iff₀ (by positivity)]
    nlinarith
  refine ⟨fun h cam mx mz => rfl, ?_, hband_lo, hband_hi, hclamp, ?_, ?_⟩
  · rw [htheta, abs_lt]
    constructor <;> linarith
  · rw [abs_lt]
    constructor <;> linarith
  · rw [hy, hYeq, abs_lt]
    constructor <;> nlinarith [hq_lo, hq_hi]

end Helix

end LostKnowledge
